import Mathlib

/-!
Verification of the clgen atomizer (`clgen/atomizer.py`) and OpenCL kernel
driver (`clgen/cldrive.py`).  Text is modelled as `List Char`, a vocabulary
as an association list from atom strings (themselves `List Char`) to integer
indices, mirroring the Python `dict`.  Machine floats appear only as opaque
measured times and are modelled by rationals.
-/

/-- Vocabulary: a mapping from atom strings to integer indices
(`Atomizer.__init__`: `self.vocab`, a Python dict). -/
abbrev Vocab : Type := List (List Char × Nat)

/-- Dictionary lookup in an association list, first match wins, mirroring
`d[key]` / `d.get(key)` on a Python dict (a dict has unique keys, so the
first match is the only one). -/
def vlookup {α β : Type} [DecidableEq α] : List (α × β) → α → Option β
  | [], _ => none
  | p :: ps, a => if p.1 = a then some p.2 else vlookup ps a

/-- Decoder mapping of `Atomizer.__init__`:
`self.decoder = dict((val, key) for key, val in vocab.items())`.
Later pairs overwrite earlier ones in a dict comprehension, hence the
`reverse` before the first-match lookup. -/
def decoder (vocab : Vocab) : List (Nat × List Char) :=
  (vocab.map (fun p => (p.2, p.1))).reverse

/-- Translation of `Atomizer.deatomize`: map every index through the decoder
and concatenate; an unknown index raises `VocabError`, modelled as `none`. -/
def deatomize (vocab : Vocab) (encoded : List Nat) : Option (List Char) :=
  (encoded.mapM (fun x => vlookup (decoder vocab) x)).map List.flatten

/-- Multi-character atoms of the vocabulary that start with character `c`:
the entry `self.lookup[c]` built by `GreedyAtomizer.__init__` from
`multichars = set(k for k in self.atoms if len(k) > 1)`.  In the source the
table is precomputed once; it is a pure function of the vocabulary, so we
recompute it at each use.  `self.lookup.get(c)` is truthy exactly when this
list is nonempty. -/
def lookupHead (vocab : Vocab) (c : Char) : List (List Char) :=
  (vocab.map Prod.fst).filter (fun a => 1 < a.length ∧ a.headD ' ' = c)

/-- Python slice `text[i:j]`: clamped at both ends, empty when `j ≤ i`. -/
def pySlice (text : List Char) (i j : Nat) : List Char :=
  (text.drop i).take (j - i)

/-- Result of one iteration of the outer `while i < len(text)` loop of
`GreedyAtomizer.atomize`. -/
inductive ScanStep : Type
  | next (i j : Nat) (acc : List Nat)
  | err
  | done (acc : List Nat)
deriving DecidableEq

/-- Translation of the backtracking loop
`while j > i + 1: if any(x == text[i:j] for x in self.lookup[text[i]]): ...
break; else: j -= 1`.  The argument `k` counts the remaining iterations,
`k = j - (i + 1)` at entry; the loop visits `j, j - 1, ..., i + 2` and
returns the first (largest) `j` whose pySlice equals a candidate atom, or
`none` when the loop exhausts (Python's `while/else`). -/
def shrinkFind (cands : List (List Char)) (text : List Char) (i : Nat) :
    Nat → Option Nat
  | 0 => none
  | k + 1 =>
    if pySlice text i (i + 1 + (k + 1)) ∈ cands then some (i + 1 + (k + 1))
    else shrinkFind cands text i k

/-- One iteration of the outer loop of `GreedyAtomizer.atomize` acting on the
state `(i, j, indices)`.  Branches, in source order:
if `self.lookup.get(text[i])` is truthy, either extend (`j += 1`) when
`j <= len(text)` and `text[i:j]` starts some candidate
(`any(x.startswith(text[i:j]) ...)`), or run the shrink loop; on a shrink
match emit `vocab[text[i:j]]` and set `i = j; j = j + 2`; on exhaustion, and
likewise when `text[i]` heads no multi-character atom, emit `vocab[text[i]]`
and set `i = i + 1; j = j + 2` (after exhaustion the loop has left
`j = min j (i+1)`).  A failed vocabulary lookup is the `KeyError` turned
into `VocabError`, modelled as `ScanStep.err`. -/
def scanStep (vocab : Vocab) (text : List Char) (i j : Nat) (acc : List Nat) :
    ScanStep :=
  if i < text.length then
    if (lookupHead vocab (text.getD i ' ')).isEmpty then
      match vlookup vocab [text.getD i ' '] with
      | some idx => .next (i + 1) (j + 2) (acc ++ [idx])
      | none => .err
    else
      if j ≤ text.length ∧ (lookupHead vocab (text.getD i ' ')).any
          (fun x => (pySlice text i j).isPrefixOf x) then
        .next i (j + 1) acc
      else
        match shrinkFind (lookupHead vocab (text.getD i ' ')) text i (j - (i + 1)) with
        | some jm =>
          match vlookup vocab (pySlice text i jm) with
          | some idx => .next jm (jm + 2) (acc ++ [idx])
          | none => .err
        | none =>
          match vlookup vocab [text.getD i ' '] with
          | some idx => .next (i + 1) (min j (i + 1) + 2) (acc ++ [idx])
          | none => .err
  else .done acc

/-- Iterate `scanStep` with explicit fuel.  The outer `none` marks fuel
exhaustion (never reached, see `atomizeGo_isSome`); `some none` is
`VocabError`; `some (some ixs)` is normal return of the index list. -/
def atomizeGo (vocab : Vocab) (text : List Char) :
    Nat → Nat → Nat → List Nat → Option (Option (List Nat))
  | 0, _, _, _ => none
  | fuel + 1, i, j, acc =>
    match scanStep vocab text i j acc with
    | .done out => some (some out)
    | .err => some none
    | .next i' j' acc' => atomizeGo vocab text fuel i' j' acc'

/-- Fuel majorant for the scan (strictly larger than the loop measure of the
initial state, see `measure_lt_fuel`). -/
def scanFuel (text : List Char) : Nat :=
  (text.length + 1) * (text.length + 2)

/-- Translation of `GreedyAtomizer.atomize`: run the scan from
`i = 0, j = 2, indices = []`.  `none` is `VocabError`. -/
def atomize (vocab : Vocab) (text : List Char) : Option (List Nat) :=
  (atomizeGo vocab text (scanFuel text) 0 2 []).getD none

/-- Translation of `Atomizer.tokenize`: `decoder[x]` for each index of
`atomize(text)`. -/
def tokenize (vocab : Vocab) (text : List Char) : Option (List (List Char)) :=
  (atomize vocab text).bind (fun ixs => ixs.mapM (fun x => vlookup (decoder vocab) x))

/-- Loop measure for the scan: lexicographic in (anchor from the right,
trial end from the right); each `scanStep.next` strictly decreases it. -/
def scanMeasure (text : List Char) (i j : Nat) : Nat :=
  (text.length - i) * (text.length + 2) + (text.length + 1 - j)

-- Termination helper lemmas --------------------------------------------------

theorem shrinkFind_some {cands : List (List Char)} {text : List Char} {i : Nat} :
    ∀ {k jm : Nat}, shrinkFind cands text i k = some jm →
      i + 2 ≤ jm ∧ jm ≤ i + 1 + k ∧ pySlice text i jm ∈ cands := by
  intro k
  induction k with
  | zero => intro jm h; simp [shrinkFind] at h
  | succ k ih =>
    intro jm h
    unfold shrinkFind at h
    split at h
    · cases h
      exact ⟨by omega, by omega, by assumption⟩
    · obtain ⟨h1, h2, h3⟩ := ih h
      exact ⟨h1, by omega, h3⟩

theorem scanMeasure_lt_of_lt {text : List Char} {i i' j j' : Nat}
    (hi : i < text.length) (hii : i < i') :
    scanMeasure text i' j' < scanMeasure text i j := by
  unfold scanMeasure
  have h1 : text.length - i' + 1 ≤ text.length - i := by omega
  calc (text.length - i') * (text.length + 2) + (text.length + 1 - j')
      < (text.length - i') * (text.length + 2) + (text.length + 2) := by omega
    _ = (text.length - i' + 1) * (text.length + 2) := by ring
    _ ≤ (text.length - i) * (text.length + 2) := Nat.mul_le_mul_right _ h1
    _ ≤ _ := Nat.le_add_right _ _

theorem scanMeasure_next {vocab : Vocab} {text : List Char} {i j : Nat}
    {acc : List Nat} {i' j' : Nat} {acc' : List Nat}
    (h : scanStep vocab text i j acc = .next i' j' acc') :
    scanMeasure text i' j' < scanMeasure text i j := by
  unfold scanStep at h
  split at h
  case isFalse => cases h
  case isTrue hi =>
    split at h
    · -- text[i] heads no multi-character atom
      split at h
      · cases h; exact scanMeasure_lt_of_lt hi (by omega)
      · cases h
    · split at h
      · -- extension step: i fixed, j + 1
        rename_i hext
        cases h
        unfold scanMeasure
        have hj := hext.1
        omega
      · split at h
        · -- shrink matched at jm
          rename_i jm hsf
          have hjm := (shrinkFind_some hsf).1
          split at h
          · cases h; exact scanMeasure_lt_of_lt hi (by omega)
          · cases h
        · -- shrink exhausted, emit single character
          split at h
          · cases h; exact scanMeasure_lt_of_lt hi (by omega)
          · cases h

theorem atomizeGo_isSome (vocab : Vocab) (text : List Char) :
    ∀ fuel i j acc, scanMeasure text i j < fuel →
      (atomizeGo vocab text fuel i j acc).isSome := by
  intro fuel
  induction fuel with
  | zero => intro i j acc h; omega
  | succ fuel ih =>
    intro i j acc _
    unfold atomizeGo
    cases hs : scanStep vocab text i j acc with
    | done out => simp
    | err => simp
    | next i' j' acc' =>
      have := scanMeasure_next hs
      exact ih i' j' acc' (by omega)

theorem measure_lt_fuel (text : List Char) :
    scanMeasure text 0 2 < scanFuel text := by
  unfold scanMeasure scanFuel
  have h : (text.length + 1) * (text.length + 2)
      = text.length * (text.length + 2) + (text.length + 2) := by ring
  rw [Nat.sub_zero, h]
  omega

-- The bundled OpenCL atom set ------------------------------------------------

/-- Transcription of the 108 explicitly listed entries of `OPENCL_ATOMS`,
in source order. -/
def OPENCL_MULTICHAR_ATOMS : List String :=
  ["  ", "__assert", "__attribute", "__builtin_astype", "__clc_fabs",
   "__clc_fma", "__constant", "__global", "__inline", "__kernel", "__local",
   "__private", "__read_only", "__read_write", "__write_only", "*/", "/*",
   "//", "abs", "alignas", "alignof", "atomic_add", "auto", "barrier", "bool",
   "break", "case", "char", "clamp", "complex", "const", "constant",
   "continue", "default", "define", "defined", "do", "double", "elif", "else",
   "endif", "enum", "error", "event_t", "extern", "fabs", "false", "float",
   "for", "get_global_id", "get_global_size", "get_local_id",
   "get_local_size", "get_num_groups", "global", "goto", "half", "if",
   "ifdef", "ifndef", "image1d_array_t", "image1d_buffer_t", "image1d_t",
   "image2d_array_t", "image2d_t", "image3d_t", "imaginary", "include",
   "inline", "int", "into", "kernel", "line", "local", "long", "noreturn",
   "pragma", "private", "quad", "read_only", "read_write", "register",
   "restrict", "return", "sampler_t", "short", "shuffle", "signed", "size_t",
   "sizeof", "sqrt", "static", "struct", "switch", "true", "typedef", "u32",
   "uchar", "uint", "ulong", "undef", "union", "unsigned", "void", "volatile",
   "while", "wide", "write_only"]

/-- Transcription of Python `string.printable` (digits, letters, punctuation,
whitespace), whose characters are the single-character atoms unioned into
`OPENCL_ATOMS`. -/
def pyPrintable : String :=
  "0123456789abcdefghijklmnopqrstuvwxyzABCDEFGHIJKLMNOPQRSTUVWXYZ!\"#$%&\x27()*+,-./:;<=>?@[\\]^_\x60\x7b|\x7d~ \t\n\r\x0b\x0c"

/-- Atom strings of the bundled set
`OPENCL_ATOMS = set([...] + list(string.printable))`.  The listed entries and
the printable characters are disjoint and each is duplicate free, so this
list enumerates the set exactly; the set's iteration order is unspecified in
Python and only fixes which index each atom gets, which no claim about the
emitted atoms depends on. -/
def openclAtoms : List (List Char) :=
  OPENCL_MULTICHAR_ATOMS.map String.data ++ pyPrintable.data.map (fun c => [c])

/-- Vocabulary of the seeded greedy atomizer built in `GreedyAtomizer.from_text`:
`opencl_vocab = dict(zip(OPENCL_ATOMS, range(len(OPENCL_ATOMS))))`. -/
def openclVocab : Vocab := openclAtoms.zip (List.range openclAtoms.length)

-- CharacterAtomizer ----------------------------------------------------------

/-- Distinct elements of a list in first-occurrence order, skipping those
already in `seen`. -/
def firstOccurs (seen : List Char) : List Char → List Char
  | [] => []
  | c :: rest =>
    if c ∈ seen then firstOccurs seen rest
    else c :: firstOccurs (c :: seen) rest

/-- Translation of `Counter(text).items()` in `CharacterAtomizer.from_text`:
each distinct character paired with its multiplicity, keys in insertion
order, which for a counting pass over `text` is first-occurrence order. -/
def charCounts (text : List Char) : List (Char × Nat) :=
  (firstOccurs [] text).map (fun c => (c, text.count c))

/-- Translation of `sorted(counter.items(), key=lambda x: -x[1])`: Python's
`sorted` is a stable sort, here by strictly descending count; stable sorting
is modelled by insertion sort with the total preorder "count at least as
large", which inserts each earlier element before later elements of equal
count. -/
def countPairs (text : List Char) : List (Char × Nat) :=
  List.insertionSort (fun p q => q.2 ≤ p.2) (charCounts text)

/-- Translation of `CharacterAtomizer.from_text`:
`atoms, _ = zip(*count_pairs); vocab = dict(zip(atoms, range(len(atoms))))`.
On an empty corpus `zip(*[])` yields no items to unpack and the assignment
raises `ValueError`, modelled as `none`. -/
def charFromText (text : List Char) : Option (List (Char × Nat)) :=
  if countPairs text = [] then none
  else
    some (((countPairs text).map Prod.fst).zip
      (List.range ((countPairs text).map Prod.fst).length))

-- Kernel driver (cldrive.py) -------------------------------------------------

/-- Modelled from the spec: the parsed argument descriptor `clutil.KernelArg`
(module `clutil` is not part of the sources; only its callers are).  Per the
spec's data model an argument carries the flags `is_pointer`, `is_global`,
`is_local`, `is_const`, a vector width `W ≥ 1` and a numeric element type;
of the element type only its byte width (`itemsize` of the numpy dtype) is
relevant here.  Re-parsing the argument text (`clutil.KernelArg(a.string)`)
reproduces this descriptor with cleared runtime fields. -/
structure ArgDescr where
  is_pointer : Bool
  is_global : Bool
  is_local : Bool
  is_const : Bool
  vector_width : Nat
  itemsize : Nat
deriving DecidableEq

/-- Host-side numpy array: element values plus the dtype's byte width.
`astype` casts values; since no claim relates values before and after a
cast, the cast is modelled as value-preserving. -/
structure NDArr where
  data : List Int
  itemsize : Nat
deriving DecidableEq

/-- Size in bytes of a numpy array (`ndarray.nbytes`). -/
def NDArr.nbytes (a : NDArr) : Nat := a.data.length * a.itemsize

/-- Device-side datum of an argument: a scalar value (`dtype(size)`), a
`cl.Buffer` handle, or a `cl.LocalMemory` scratch handle.  Handles carry an
allocation token: a fresh token per constructed object models CPython
object identity, which is what `==`/`!=` compare on `pyopencl` handle
objects (they define no `__eq__`). -/
inductive DevData : Type
  | scalar (v : Int)
  | buffer (tok : Nat)
  | localMem (tok : Nat) (size : Nat)
deriving DecidableEq

/-- Python `x.devdata == y.devdata` as used by `KernelPayload.__eq__`:
numpy scalars compare by value, handle objects by identity (token). -/
def devDataEq : DevData → DevData → Bool
  | .scalar a, .scalar b => a == b
  | .buffer a, .buffer b => a == b
  | .localMem a _, .localMem b _ => a == b
  | _, _ => false

/-- Runtime state of one `clutil.KernelArg` inside a payload: the parsed
descriptor plus the fields the driver assigns (`hostdata`, `devdata`,
`bufsize`, `flags`). -/
structure KernelArg where
  descr : ArgDescr
  hostdata : Option NDArr
  devdata : DevData
  bufsize : Nat
  flags : Nat
deriving DecidableEq

/-- Translation of `KernelPayload.__init__`: borrowed context handle,
argument list, ND-range tuple and transfer size in bytes. -/
structure KernelPayload where
  ctx : Nat
  args : List KernelArg
  ndrange : List Nat
  transfersize : Nat
deriving DecidableEq

/-- Values of `pyopencl.mem_flags` (the OpenCL 1.x bitfield). -/
def CL_MEM_READ_WRITE : Nat := 1

/-- Values of `pyopencl.mem_flags` (the OpenCL 1.x bitfield). -/
def CL_MEM_READ_ONLY : Nat := 4

/-- Values of `pyopencl.mem_flags` (the OpenCL 1.x bitfield). -/
def CL_MEM_COPY_HOST_PTR : Nat := 32

/-- Per-argument comparison of `KernelPayload.__eq__`: without host data the
device datum is compared (scalars by value, local scratch handles by
identity); with host data, lengths then elements.  The `type(x) != type(y)`
guard always passes (every element is a `clutil.KernelArg`).  When `x` has
host data but `y` has none, CPython would raise `TypeError` on
`len(None)`; that point is unreachable for payloads of one prototype and is
modelled as an unequal result. -/
def argEq (x y : KernelArg) : Bool :=
  match x.hostdata with
  | none => devDataEq x.devdata y.devdata
  | some hx =>
    match y.hostdata with
    | some hy =>
      hx.data.length == hy.data.length &&
        ((hx.data.zip hy.data).all fun p => p.1 == p.2)
    | none => false

/-- Translation of `KernelPayload.__eq__`: contexts, argument counts, then
per-argument comparison.  `__ne__` is its negation. -/
def payloadEq (a b : KernelPayload) : Bool :=
  a.ctx == b.ctx && a.args.length == b.args.length &&
    ((a.args.zip b.args).all fun p => argEq p.1 p.2)

/-- Per-argument body of `KernelPayload.__deepcopy__`, threading the
allocation token used for freshly constructed device handles: a local
scratch is re-created at the same byte size (`cl.LocalMemory(src.bufsize)`),
a scalar is copied by value, a global buffer gets deep-copied host data and
a fresh `cl.Buffer` built from it with the same flags. -/
def cloneArg (src : KernelArg) (tok : Nat) : KernelArg × Nat :=
  if src.hostdata.isNone ∧ src.descr.is_local then
    ({ descr := src.descr, hostdata := none,
       devdata := .localMem tok src.bufsize, bufsize := src.bufsize,
       flags := 0 }, tok + 1)
  else if src.hostdata.isNone then
    ({ descr := src.descr, hostdata := none, devdata := src.devdata,
       bufsize := 0, flags := 0 }, tok)
  else
    ({ descr := src.descr, hostdata := src.hostdata, devdata := .buffer tok,
       bufsize := 0, flags := src.flags }, tok + 1)

/-- Clone every argument in order, threading the allocation token. -/
def cloneArgs : List KernelArg → Nat → List KernelArg × Nat
  | [], tok => ([], tok)
  | a :: rest, tok =>
    let r1 := cloneArg a tok
    let r2 := cloneArgs rest r1.2
    (r1.1 :: r2.1, r2.2)

/-- Translation of `KernelPayload.__deepcopy__`: same (borrowed) context,
cloned arguments, same ND-range and transfer size.  `tok` is the next free
allocation token; callers pass a token larger than any token in `p` so that
fresh handles are distinct objects. -/
def deepcopy (p : KernelPayload) (tok : Nat) : KernelPayload × Nat :=
  let r := cloneArgs p.args tok
  ({ ctx := p.ctx, args := r.1, ndrange := p.ndrange,
     transfersize := p.transfersize }, r.2)

/-- Per-argument body of `KernelPayload._create_payload`, threading the
allocation token; returns the argument, the next token and the argument's
transfer contribution.  `gen` is the numpy factory (`np.arange` or
`np.random.rand`), producing `n` elements of byte width `genIsz` (8 for
both: int64 and float64); a local pointer records `nparray(veclength).nbytes`
as `bufsize` and allocates scratch; a non-local pointer gets
`nparray(veclength).astype(dtype)` as host data, flags
`COPY_HOST_PTR | (READ_ONLY if const else READ_WRITE)`, a buffer handle, and
contributes `nbytes` (const) or `2·nbytes`; a scalar gets `dtype(size)`. -/
def createArg (gen : Nat → List Int) (genIsz : Nat) (size : Nat)
    (d : ArgDescr) (tok : Nat) : KernelArg × Nat × Nat :=
  if d.is_pointer ∧ d.is_local then
    let bufsize := (NDArr.mk (gen (size * d.vector_width)) genIsz).nbytes
    ({ descr := d, hostdata := none, devdata := .localMem tok bufsize,
       bufsize := bufsize, flags := 0 }, tok + 1, 0)
  else if d.is_pointer then
    let hostdata := NDArr.mk (gen (size * d.vector_width)) d.itemsize
    let flags := CL_MEM_COPY_HOST_PTR +
      (if d.is_const then CL_MEM_READ_ONLY else CL_MEM_READ_WRITE)
    ({ descr := d, hostdata := some hostdata, devdata := .buffer tok,
       bufsize := 0, flags := flags },
     tok + 1, if d.is_const then hostdata.nbytes else 2 * hostdata.nbytes)
  else
    ({ descr := d, hostdata := none, devdata := .scalar (size : Int),
       bufsize := 0, flags := 0 }, tok, 0)

/-- Create all arguments in order, threading the token and accumulating the
transfer size. -/
def createArgs (gen : Nat → List Int) (genIsz : Nat) (size : Nat) :
    List ArgDescr → Nat → List KernelArg × Nat × Nat
  | [], tok => ([], tok, 0)
  | d :: ds, tok =>
    let r1 := createArg gen genIsz size d tok
    let r2 := createArgs gen genIsz size ds r1.2.1
    (r1.1 :: r2.1, r2.2.1, r1.2.2 + r2.2.2)

/-- Translation of `KernelPayload._create_payload`: build one argument per
prototype descriptor and return
`KernelPayload(driver.context, args, (size,), transfer)`. -/
def createPayload (gen : Nat → List Int) (genIsz : Nat) (ctx : Nat)
    (descrs : List ArgDescr) (size : Nat) (tok : Nat) : KernelPayload × Nat :=
  let r := createArgs gen genIsz size descrs tok
  ({ ctx := ctx, args := r.1, ndrange := [size], transfersize := r.2.2 }, r.2.1)

/-- Element values of `np.arange(n)` (`KernelPayload.create_sequential`). -/
def npArange (n : Nat) : List Int := (List.range n).map Int.ofNat

-- Host <-> device transfers --------------------------------------------------

/-- Loop of `KernelPayload.host_to_device`.  `times e` is the elapsed
milliseconds reported by `get_event_time` for the `e`-th enqueued copy of
this call (an external measurement); `idx` is the position of the argument
under scrutiny and `k` the number of copies enqueued so far.  Returns the
positions of the arguments whose buffers were copied (the enqueue trace, an
added observable) together with the returned `elapsed`, which this loop
accumulates: `elapsed += get_event_time(event)`. -/
def h2dGo (times : Nat → Rat) : List KernelArg → Nat → Nat → Rat →
    List Nat × Rat
  | [], _, _, elapsed => ([], elapsed)
  | a :: rest, idx, k, elapsed =>
    if a.hostdata.isNone then h2dGo times rest (idx + 1) k elapsed
    else
      let r := h2dGo times rest (idx + 1) (k + 1) (elapsed + times k)
      (idx :: r.1, r.2)

/-- Translation of `KernelPayload.host_to_device`: skip arguments without
host data, copy the rest, accumulate event times, return the total. -/
def host_to_device (times : Nat → Rat) (args : List KernelArg) :
    List Nat × Rat :=
  h2dGo times args 0 0 0

/-- Loop of `KernelPayload.device_to_host`: additionally skips const
pointers; an event is produced and awaited (`get_event_time(event)`) for
every copy, but its result is discarded — `elapsed` is never incremented
after its initialisation to 0. -/
def d2hGo (times : Nat → Rat) : List KernelArg → Nat → Nat → Rat →
    List Nat × Rat
  | [], _, _, elapsed => ([], elapsed)
  | a :: rest, idx, k, elapsed =>
    if a.hostdata.isNone || a.descr.is_const then
      d2hGo times rest (idx + 1) k elapsed
    else
      let r := d2hGo times rest (idx + 1) (k + 1) elapsed
      (idx :: r.1, r.2)

/-- Translation of `KernelPayload.device_to_host`: enqueue a read-back for
every non-const argument with host data and return `elapsed`. -/
def device_to_host (times : Nat → Rat) (args : List KernelArg) :
    List Nat × Rat :=
  d2hGo times args 0 0 0

-- KernelDriver ---------------------------------------------------------------

/-- Profiling vectors of a `KernelDriver`; `KernelDriver.__init__` starts all
three empty. -/
structure DriverState where
  wgsizes : List Nat
  transfers : List Nat
  runtimes : List Rat
deriving DecidableEq

/-- Fresh driver state (`self._wgsizes = []; self._transfers = [];
self._runtimes = []`). -/
def DriverState.empty : DriverState := ⟨[], [], []⟩

/-- Error kinds a single-shot run can raise. -/
inductive DriveErr : Type
  | badArgs
  | badProfile
deriving DecidableEq

/-- External effects of one single-shot execution: whether
`kernel.set_args` succeeds, whether the profiling API succeeds, the event
times of the host-to-device copies, of the kernel itself, and of the
device-to-host copies. -/
structure CallExt where
  bindOk : Bool
  profOk : Bool
  h2dTimes : Nat → Rat
  kTime : Rat
  d2hTimes : Nat → Rat

/-- Translation of `KernelDriver.__call__`: clone the payload, run the
H→D transfer, bind arguments, execute with local size
`min(output.ndrange[0], 256)`, run the D→H transfer, then append the local
size, the elapsed total and the input's transfer size to the three
profiling vectors.  Every failure (`E_BAD_ARGS` from `set_args`,
`E_BAD_PROFILE` from any `get_event_time`) raises before the three appends;
the exact failure point does not matter here, so the two failure modes are
checked up front. -/
def driverCall (st : DriverState) (p : KernelPayload) (ext : CallExt)
    (tok : Nat) : Except DriveErr (DriverState × KernelPayload × Nat) :=
  let r := deepcopy p tok
  if ¬ ext.profOk then .error .badProfile
  else if ¬ ext.bindOk then .error .badArgs
  else
    let elapsed := (host_to_device ext.h2dTimes r.1.args).2 + ext.kTime
      + (device_to_host ext.d2hTimes r.1.args).2
    let lsx := min (r.1.ndrange.headD 0) 256
    .ok ({ wgsizes := st.wgsizes ++ [lsx],
           transfers := st.transfers ++ [p.transfersize],
           runtimes := st.runtimes ++ [elapsed] }, r.1, r.2)

/-- Run a sequence of single-shot executions against one driver; a raised
exception leaves the profiling vectors untouched and propagates to the
caller (which, as in `KernelDriver.profile`, may continue using the
driver). -/
def runCalls : DriverState → Nat → List (KernelPayload × CallExt) →
    DriverState
  | st, _, [] => st
  | st, tok, (p, ext) :: rest =>
    match driverCall st p ext tok with
    | .ok r => runCalls r.1 r.2.2 rest
    | .error _ => runCalls st tok rest

-- Validator ------------------------------------------------------------------

/-- Error kinds of `KernelDriver.validate`. -/
inductive VErr : Type
  | badDriver
  | noOutputs
  | nondeterministic
  | inputInsensitive
deriving DecidableEq

/-- Assertion chain of `KernelDriver.validate` after payload construction,
taking the four inputs, the four outputs of the completed runs and the
prototype descriptors (for `any(not x.is_const ...)`).  Each
`assert_constraint(c, err)` raises `err` when `c` is false, in source
order: the two `E_BAD_DRIVER` preconditions, the two `E_NO_OUTPUTS`
checks (`A1in != A1out`, `B1in != B1out`), the two `E_NONDETERMINISTIC`
checks, then `E_INPUT_INSENSITIVE`. -/
def validatePost (A1in A2in B1in B2in A1out B1out A2out B2out : KernelPayload)
    (descrs : List ArgDescr) : Except VErr Unit :=
  if ¬ payloadEq A1in A2in then .error .badDriver
  else if ¬ payloadEq B1in B2in then .error .badDriver
  else if payloadEq A1in A1out then .error .noOutputs
  else if payloadEq B1in B1out then .error .noOutputs
  else if ¬ payloadEq A1out A2out then .error .nondeterministic
  else if ¬ payloadEq B1out B2out then .error .nondeterministic
  else if (descrs.any fun d => !d.is_const) ∧ payloadEq A1out B1out then
    .error .inputInsensitive
  else .ok ()

-- ============================================================================
-- Claim theorems
-- ============================================================================

/-- C10: `GreedyAtomizer.atomize` terminates on every input text for every
vocabulary: the scan from the initial state `i = 0, j = 2` completes within
the fuel bound `scanFuel text`, because every iteration either advances the
anchor `i`, or advances the bounded trial end `j`, or shrinks and then
advances `i` — the measure `scanMeasure` strictly decreases each round,
even when `j` exceeds `len(text)` and `text[i:j]` is a clamped substring. -/
theorem atomize_terminates (vocab : Vocab) (text : List Char) :
    (atomizeGo vocab text (scanFuel text) 0 2 []).isSome := by
  exact atomizeGo_isSome vocab text (scanFuel text) 0 2 []
    (measure_lt_fuel text)

/-- Argument used to exhibit the `device_to_host` accumulation bug: a
non-const global int pointer with a two-element host buffer. -/
def d2hArg : KernelArg :=
  { descr := { is_pointer := true, is_global := true, is_local := false,
               is_const := false, vector_width := 1, itemsize := 4 },
    hostdata := some ⟨[0, 1], 4⟩, devdata := .buffer 0, bufsize := 0,
    flags := 33 }

/-- C5: evaluation at the failing input.  For a payload with one non-const
global pointer argument whose copy event reports 1 ms,
`device_to_host` does enqueue the read-back for that argument (trace `[0]`)
but returns `elapsed = 0`: the accumulator is never incremented, unlike the
mirrored `host_to_device`, which returns 1 ms for the same argument and
event times. -/
theorem device_to_host_returns_zero :
    (device_to_host (fun _ => (1 : Rat)) [d2hArg]).1 = [0] ∧
    (device_to_host (fun _ => (1 : Rat)) [d2hArg]).2 = 0 ∧
    (host_to_device (fun _ => (1 : Rat)) [d2hArg]).2 = 1 := by
  refine ⟨rfl, rfl, ?_⟩
  show (0 : Rat) + 1 = 1
  norm_num

set_option maxRecDepth 40000 in
/-- C3: with the bundled `OPENCL_ATOMS` vocabulary, the text
`"__kernel void f"` tokenizes to exactly the five atoms
`["__kernel", " ", "void", " ", "f"]` — the longest match `__kernel` is
emitted rather than any shorter atom such as `_`. -/
theorem opencl_tokenize_kernel_void_f :
    tokenize openclVocab "__kernel void f".data
      = some (["__kernel", " ", "void", " ", "f"].map String.data) := by
  decide

/-- Three-atom vocabulary over `ab`, `a`, `b`, used for concrete checks of
the scanner. -/
def vocabAB : Vocab := [("ab".data, 0), ("a".data, 1), ("b".data, 2)]

/-- C2, counterexample: the extension condition of the source is
"`text[i:j]` is a (not necessarily proper) prefix of some candidate atom"
(`x.startswith(text[i:j])`), not "some candidate atom is a proper prefix of
`text[i:j]`".  At state `(i,j) = (0,2)` on `"ab"` the scan advances `j`
although no candidate atom is a proper prefix of `text[0:2] = "ab"`; at
state `(0,3)` on `"abc"` the atom `"ab"` is a proper prefix of
`text[0:3] = "abc"` yet the scan does not advance `j` — it shrinks and
emits. -/
theorem scan_extend_proper_prefix_cex :
    scanStep vocabAB "ab".data 0 2 [] = .next 0 3 [] ∧
    ¬ (2 ≤ "ab".data.length ∧ ∃ x ∈ lookupHead vocabAB 'a',
        x.isPrefixOf (pySlice "ab".data 0 2) ∧ x ≠ pySlice "ab".data 0 2) ∧
    (3 ≤ "abc".data.length ∧ ∃ x ∈ lookupHead vocabAB 'a',
        x.isPrefixOf (pySlice "abc".data 0 3) ∧ x ≠ pySlice "abc".data 0 3) ∧
    scanStep vocabAB "abc".data 0 3 [] ≠ .next 0 4 [] := by
  decide

/-- C2, amended: whenever `text[i]` heads at least one multi-character atom,
one round of the scan advances the trial end `j` by 1 (leaving `i` and the
emitted indices unchanged) exactly when `j ≤ len(text)` and `text[i:j]` is a
prefix — equality allowed — of some multi-character atom for this head;
in every other outcome of the round the shrink phase has run (or a
vocabulary lookup failed), and the state does not step to `(i, j+1)`. -/
theorem scan_extend_iff (vocab : Vocab) (text : List Char) (i j : Nat)
    (acc : List Nat) (hi : i < text.length)
    (hc : (lookupHead vocab (text.getD i ' ')).isEmpty = false) :
    scanStep vocab text i j acc = .next i (j + 1) acc ↔
      (j ≤ text.length ∧ (lookupHead vocab (text.getD i ' ')).any
        (fun x => (pySlice text i j).isPrefixOf x) = true) := by
  unfold scanStep
  rw [if_pos hi, hc]
  simp only [Bool.false_eq_true, if_false]
  by_cases hext : j ≤ text.length ∧ (lookupHead vocab (text.getD i ' ')).any
      (fun x => (pySlice text i j).isPrefixOf x) = true
  · rw [if_pos hext]
    exact iff_of_true rfl hext
  · rw [if_neg hext]
    constructor
    · intro h
      exfalso
      split at h
      · split at h
        · simp only [ScanStep.next.injEq] at h
          have := congrArg List.length h.2.2
          simp at this
        · exact ScanStep.noConfusion h
      · split at h
        · simp only [ScanStep.next.injEq] at h
          have := congrArg List.length h.2.2
          simp at this
        · exact ScanStep.noConfusion h
    · intro h
      exact absurd h hext

/-- Witness for `scan_extend_iff` at the extension step of `"ab"` under
`vocabAB`. -/
theorem scan_extend_iff_witness :
    scanStep vocabAB "ab".data 0 2 [] = .next 0 (2 + 1) [] ↔
      (2 ≤ "ab".data.length ∧ (lookupHead vocabAB ("ab".data.getD 0 ' ')).any
        (fun x => (pySlice "ab".data 0 2).isPrefixOf x) = true) :=
  scan_extend_iff vocabAB "ab".data 0 2 [] (by decide) (by decide)

theorem driverCall_success {st : DriverState} {p : KernelPayload}
    {ext : CallExt} {tok : Nat} (h : (ext.profOk && ext.bindOk) = true) :
    ∃ r, driverCall st p ext tok = .ok r ∧
      r.1.wgsizes.length = st.wgsizes.length + 1 ∧
      r.1.transfers.length = st.transfers.length + 1 ∧
      r.1.runtimes.length = st.runtimes.length + 1 := by
  simp only [Bool.and_eq_true] at h
  unfold driverCall
  rw [if_neg (by simp [h.1]), if_neg (by simp [h.2])]
  exact ⟨_, rfl, by simp, by simp, by simp⟩

theorem driverCall_failure {st : DriverState} {p : KernelPayload}
    {ext : CallExt} {tok : Nat} (h : (ext.profOk && ext.bindOk) = false) :
    ∃ e, driverCall st p ext tok = .error e := by
  unfold driverCall
  by_cases hp : ext.profOk = true
  · rw [Bool.and_eq_false_iff] at h
    have hb : ext.bindOk = false := by
      cases h with
      | inl h => rw [h] at hp; cases hp
      | inr h => exact h
    rw [if_neg (by simp [hp]), if_pos (by simp [hb])]
    exact ⟨_, rfl⟩
  · rw [if_pos hp]
    exact ⟨_, rfl⟩

/-- C9: the three profiling vectors of a driver all start empty and each
successful single-shot execution appends exactly one element to each, while
a failed one (argument binding or profiling API failure) appends nothing —
so after any sequence of calls all three vectors have equal length, namely
the number of successful calls. -/
theorem driver_vectors_length (tok : Nat)
    (calls : List (KernelPayload × CallExt)) :
    (runCalls DriverState.empty tok calls).wgsizes.length
        = (calls.countP fun pc => pc.2.profOk && pc.2.bindOk) ∧
    (runCalls DriverState.empty tok calls).transfers.length
        = (calls.countP fun pc => pc.2.profOk && pc.2.bindOk) ∧
    (runCalls DriverState.empty tok calls).runtimes.length
        = (calls.countP fun pc => pc.2.profOk && pc.2.bindOk) := by
  suffices h : ∀ (st : DriverState) (tok : Nat),
      (runCalls st tok calls).wgsizes.length
          = st.wgsizes.length + (calls.countP fun pc => pc.2.profOk && pc.2.bindOk) ∧
      (runCalls st tok calls).transfers.length
          = st.transfers.length + (calls.countP fun pc => pc.2.profOk && pc.2.bindOk) ∧
      (runCalls st tok calls).runtimes.length
          = st.runtimes.length + (calls.countP fun pc => pc.2.profOk && pc.2.bindOk) by
    simpa [DriverState.empty] using h DriverState.empty tok
  induction calls with
  | nil => intro st tok; simp [runCalls]
  | cons pc rest ih =>
    intro st tok
    obtain ⟨p, ext⟩ := pc
    cases hok : (ext.profOk && ext.bindOk) with
    | true =>
      obtain ⟨r, hr, hw, ht, hrt⟩ := @driverCall_success st p ext tok hok
      unfold runCalls
      rw [hr]
      obtain ⟨ih1, ih2, ih3⟩ := ih r.1 r.2.2
      simp only [List.countP_cons, hok, eq_self_iff_true, if_true]
      refine ⟨?_, ?_, ?_⟩ <;> omega
    | false =>
      obtain ⟨e, hr⟩ := @driverCall_failure st p ext tok hok
      unfold runCalls
      rw [hr]
      obtain ⟨ih1, ih2, ih3⟩ := ih st tok
      simp only [List.countP_cons, hok, Bool.false_eq_true, if_false]
      refine ⟨?_, ?_, ?_⟩ <;> omega

/-- C7: given the payload preconditions of `KernelDriver.validate`
(`A1in == A2in` and `B1in == B2in`) and the four completed runs, the
assertion chain raises `E_NO_OUTPUTS` exactly when `A1out` equals `A1in` or
`B1out` equals `B1in` — the conjunction `A1in != A1out and B1in != B1out`
is asserted — and this happens before the determinism and
input-sensitivity checks regardless of their outcomes. -/
theorem validate_no_outputs_iff
    (A1in A2in B1in B2in A1out B1out A2out B2out : KernelPayload)
    (descrs : List ArgDescr)
    (h1 : payloadEq A1in A2in = true) (h2 : payloadEq B1in B2in = true) :
    validatePost A1in A2in B1in B2in A1out B1out A2out B2out descrs
        = .error .noOutputs
      ↔ (payloadEq A1in A1out = true ∨ payloadEq B1in B1out = true) := by
  unfold validatePost
  rw [h1, h2]
  rw [if_neg (by simp), if_neg (by simp)]
  by_cases hA : payloadEq A1in A1out = true
  · rw [if_pos hA]
    exact iff_of_true rfl (Or.inl hA)
  · rw [if_neg hA]
    by_cases hB : payloadEq B1in B1out = true
    · rw [if_pos hB]
      exact iff_of_true rfl (Or.inr hB)
    · rw [if_neg hB]
      refine iff_of_false ?_ ?_
      · intro hcon
        split at hcon
        · exact VErr.noConfusion (Except.error.inj hcon)
        · split at hcon
          · exact VErr.noConfusion (Except.error.inj hcon)
          · split at hcon
            · exact VErr.noConfusion (Except.error.inj hcon)
            · exact Except.noConfusion hcon
      · intro hcon
        rcases hcon with h | h
        · exact hA h
        · exact hB h

/-- Scalar-argument payload used to instantiate the validator theorem. -/
def payS (v : Int) : KernelPayload :=
  { ctx := 0,
    args := [{ descr := { is_pointer := false, is_global := false,
                          is_local := false, is_const := false,
                          vector_width := 1, itemsize := 4 },
               hostdata := none, devdata := .scalar v, bufsize := 0,
               flags := 0 }],
    ndrange := [16], transfersize := 0 }

/-- Witness for `validate_no_outputs_iff`: `A1out = A1in` makes the chain
raise `E_NO_OUTPUTS`. -/
theorem validate_no_outputs_iff_witness :
    validatePost (payS 1) (payS 1) (payS 2) (payS 2) (payS 1) (payS 5)
        (payS 9) (payS 9) [] = .error .noOutputs
      ↔ (payloadEq (payS 1) (payS 1) = true ∨
          payloadEq (payS 2) (payS 5) = true) :=
  validate_no_outputs_iff (payS 1) (payS 1) (payS 2) (payS 2) (payS 1)
    (payS 5) (payS 9) (payS 9) [] (by decide) (by decide)

theorem createArgs_transfer (gen : Nat → List Int) (genIsz size : Nat) :
    ∀ (descrs : List ArgDescr) (tok : Nat),
      (createArgs gen genIsz size descrs tok).2.2 =
        (descrs.map fun d =>
          if d.is_pointer ∧ d.is_local then 0
          else if d.is_pointer then
            (if d.is_const then
              (NDArr.mk (gen (size * d.vector_width)) d.itemsize).nbytes
             else
              2 * (NDArr.mk (gen (size * d.vector_width)) d.itemsize).nbytes)
          else 0).sum := by
  intro descrs
  induction descrs with
  | nil => intro tok; simp [createArgs]
  | cons d ds ih =>
    intro tok
    unfold createArgs createArg
    by_cases h1 : d.is_pointer = true ∧ d.is_local = true
    · rw [if_pos h1]
      simp only [List.map_cons, List.sum_cons, if_pos h1]
      rw [ih]
    · rw [if_neg h1]
      by_cases h2 : d.is_pointer = true
      · rw [if_pos h2]
        simp only [List.map_cons, List.sum_cons, if_neg h1, if_pos h2]
        rw [ih]
      · rw [if_neg h2]
        simp only [List.map_cons, List.sum_cons, if_neg h1, if_neg h2]
        rw [ih]

/-- C6: the recorded `transfersize` of any payload built by
`_create_payload` (hence by both generators; `gen` is any numpy factory
producing `n` elements for input `n`) is the sum over the arguments of:
host-buffer `nbytes` for const global pointers, `2·nbytes` for non-const
global pointers — `nbytes = size · W · itemsize` — and zero for local
pointers and scalars.  The prototype invariant that a pointer is global
exactly when it is not local links the claim's wording to the code's
branch on `is_local`. -/
theorem transfersize_formula (gen : Nat → List Int) (genIsz ctx size tok : Nat)
    (descrs : List ArgDescr)
    (hgen : ∀ n, (gen n).length = n)
    (hglob : ∀ d ∈ descrs, d.is_pointer = true → d.is_global = !d.is_local) :
    (createPayload gen genIsz ctx descrs size tok).1.transfersize =
      (descrs.map fun d =>
        if d.is_pointer && d.is_global && d.is_const then
          size * d.vector_width * d.itemsize
        else if d.is_pointer && d.is_global then
          2 * (size * d.vector_width * d.itemsize)
        else 0).sum := by
  have hpt : (createPayload gen genIsz ctx descrs size tok).1.transfersize
      = (createArgs gen genIsz size descrs tok).2.2 := rfl
  rw [hpt, createArgs_transfer]
  congr 1
  apply List.map_congr_left
  intro d hd
  cases hp : d.is_pointer with
  | false => simp [hp]
  | true =>
    have hg := hglob d hd hp
    cases hl : d.is_local with
    | true =>
      rw [hl] at hg
      simp [hp, hl, hg]
    | false =>
      rw [hl] at hg
      have hnb : (NDArr.mk (gen (size * d.vector_width)) d.itemsize).nbytes
          = size * d.vector_width * d.itemsize := by
        show (gen (size * d.vector_width)).length * d.itemsize = _
        rw [hgen]
      cases hc : d.is_const <;> simp [hp, hl, hg, hc, hnb]

/-- Witness for `transfersize_formula`: a const int pointer, a non-const
float pointer, a local pointer and a scalar, at `size = 16`,
`W = 1`, `itemsize = 4`: transfer `= 64 + 2·64 = 192` bytes. -/
theorem transfersize_formula_witness :
    (createPayload npArange 8 0
        [{ is_pointer := true, is_global := true, is_local := false,
           is_const := true, vector_width := 1, itemsize := 4 },
         { is_pointer := true, is_global := true, is_local := false,
           is_const := false, vector_width := 1, itemsize := 4 },
         { is_pointer := true, is_global := false, is_local := true,
           is_const := false, vector_width := 1, itemsize := 4 },
         { is_pointer := false, is_global := false, is_local := false,
           is_const := true, vector_width := 1, itemsize := 4 }]
        16 0).1.transfersize =
      ([{ is_pointer := true, is_global := true, is_local := false,
          is_const := true, vector_width := 1, itemsize := 4 },
        { is_pointer := true, is_global := true, is_local := false,
          is_const := false, vector_width := 1, itemsize := 4 },
        { is_pointer := true, is_global := false, is_local := true,
          is_const := false, vector_width := 1, itemsize := 4 },
        { is_pointer := false, is_global := false, is_local := false,
          is_const := true, vector_width := 1, itemsize := 4 }].map
          fun d : ArgDescr =>
        if d.is_pointer && d.is_global && d.is_const then
          16 * d.vector_width * d.itemsize
        else if d.is_pointer && d.is_global then
          2 * (16 * d.vector_width * d.itemsize)
        else 0).sum :=
  transfersize_formula npArange 8 0 16 0 _
    (fun n => by simp [npArange]) (by decide)

-- Round-trip machinery (C1) --------------------------------------------------

theorem vlookup_mem {α β : Type} [DecidableEq α] :
    ∀ {l : List (α × β)} {a : α} {b : β}, vlookup l a = some b → (a, b) ∈ l := by
  intro l
  induction l with
  | nil => intro a b h; cases h
  | cons p ps ih =>
    intro a b h
    unfold vlookup at h
    split at h
    · cases h
      rename_i hpa
      rw [← hpa]
      exact List.mem_cons_self _ _
    · exact List.mem_cons_of_mem _ (ih h)

theorem vlookup_of_mem_nodup {α β : Type} [DecidableEq α] :
    ∀ {l : List (α × β)} {a : α} {b : β},
      (l.map Prod.fst).Nodup → (a, b) ∈ l → vlookup l a = some b := by
  intro l
  induction l with
  | nil => intro a b _ h; cases h
  | cons p ps ih =>
    intro a b hnd hmem
    rw [List.map_cons, List.nodup_cons] at hnd
    unfold vlookup
    rcases List.mem_cons.mp hmem with hp | hps
    · rw [← hp]
      simp
    · split
      · rename_i hpa
        exfalso
        apply hnd.1
        rw [hpa]
        exact List.mem_map_of_mem Prod.fst hps
      · exact ih hnd.2 hps

theorem decoder_keys (vocab : Vocab) :
    (decoder vocab).map Prod.fst = (vocab.map Prod.snd).reverse := by
  unfold decoder
  rw [List.map_reverse, List.map_map]
  rfl

theorem decoder_lookup {vocab : Vocab} (hv : (vocab.map Prod.snd).Nodup)
    {a : List Char} {idx : Nat} (h : vlookup vocab a = some idx) :
    vlookup (decoder vocab) idx = some a := by
  apply vlookup_of_mem_nodup
  · rw [decoder_keys]
    exact List.nodup_reverse.mpr hv
  · unfold decoder
    rw [List.mem_reverse, List.mem_map]
    exact ⟨(a, idx), vlookup_mem h, rfl⟩

theorem deatomize_nil (vocab : Vocab) : deatomize vocab [] = some [] := rfl

theorem deatomize_cons_some {vocab : Vocab} {x : Nat} {xs : List Nat}
    {a s : List Char} (hx : vlookup (decoder vocab) x = some a)
    (hxs : deatomize vocab xs = some s) :
    deatomize vocab (x :: xs) = some (a ++ s) := by
  unfold deatomize at hxs ⊢
  rw [List.mapM_cons, hx]
  cases hmm : xs.mapM (fun x => vlookup (decoder vocab) x) with
  | none => rw [hmm] at hxs; cases hxs
  | some l =>
    rw [hmm] at hxs
    have hs : s = l.flatten := by simpa using hxs.symm
    rw [hs]
    rfl

theorem scanStep_done {vocab : Vocab} {text : List Char} {i j : Nat}
    {acc a : List Nat} (h : scanStep vocab text i j acc = .done a) :
    text.length ≤ i ∧ a = acc := by
  unfold scanStep at h
  split at h
  · split at h
    · split at h
      · exact ScanStep.noConfusion h
      · exact ScanStep.noConfusion h
    · split at h
      · exact ScanStep.noConfusion h
      · split at h
        · split at h
          · exact ScanStep.noConfusion h
          · exact ScanStep.noConfusion h
        · split at h
          · exact ScanStep.noConfusion h
          · exact ScanStep.noConfusion h
  · rename_i hge
    cases h
    exact ⟨by omega, rfl⟩

theorem scanStep_next_cases {vocab : Vocab} {text : List Char} {i j : Nat}
    {acc : List Nat} {i' j' : Nat} {acc2 : List Nat}
    (h : scanStep vocab text i j acc = .next i' j' acc2) :
    (i' = i ∧ acc2 = acc) ∨
    (∃ idx, i' = i + 1 ∧ acc2 = acc ++ [idx] ∧ i < text.length ∧
        vlookup vocab [text.getD i ' '] = some idx) ∨
    (∃ idx, i + 2 ≤ i' ∧ acc2 = acc ++ [idx] ∧ i < text.length ∧
        vlookup vocab (pySlice text i i') = some idx) := by
  unfold scanStep at h
  split at h
  case isFalse => exact ScanStep.noConfusion h
  case isTrue hi =>
    split at h
    · -- single character: no multi-character candidates
      split at h
      · simp only [ScanStep.next.injEq] at h
        rename_i hvl
        exact Or.inr (Or.inl ⟨_, h.1.symm, h.2.2.symm, hi, hvl⟩)
      · exact ScanStep.noConfusion h
    · split at h
      · -- extension
        simp only [ScanStep.next.injEq] at h
        exact Or.inl ⟨h.1.symm, h.2.2.symm⟩
      · split at h
        · -- shrink match at jm
          rename_i jm hsf
          split at h
          · simp only [ScanStep.next.injEq] at h
            rename_i hvl
            have hjm := (shrinkFind_some hsf).1
            refine Or.inr (Or.inr ⟨_, by omega, h.2.2.symm, hi, ?_⟩)
            rw [h.1] at hvl
            exact hvl
          · exact ScanStep.noConfusion h
        · -- shrink exhausted: single character
          split at h
          · simp only [ScanStep.next.injEq] at h
            rename_i hvl
            exact Or.inr (Or.inl ⟨_, h.1.symm, h.2.2.symm, hi, hvl⟩)
          · exact ScanStep.noConfusion h

theorem atomizeGo_deatomize {vocab : Vocab} {text : List Char}
    (hv : (vocab.map Prod.snd).Nodup) :
    ∀ fuel i j acc out, atomizeGo vocab text fuel i j acc = some (some out) →
      ∃ tail, out = acc ++ tail ∧ deatomize vocab tail = some (text.drop i) := by
  intro fuel
  induction fuel with
  | zero => intro i j acc out h; cases h
  | succ fuel ih =>
    intro i j acc out h
    unfold atomizeGo at h
    cases hs : scanStep vocab text i j acc with
    | done a =>
      rw [hs] at h
      simp only [Option.some.injEq] at h
      obtain ⟨hlen, ha⟩ := scanStep_done hs
      refine ⟨[], by rw [← h, ha, List.append_nil], ?_⟩
      rw [deatomize_nil, List.drop_eq_nil_of_le hlen]
    | err =>
      rw [hs] at h
      simp at h
    | next i' j' acc2 =>
      rw [hs] at h
      obtain ⟨tail', htail', hdec'⟩ := ih i' j' acc2 out h
      rcases scanStep_next_cases hs with
        ⟨hii, hacc⟩ | ⟨idx, hii, hacc, hilt, hvl⟩ | ⟨idx, hii, hacc, hilt, hvl⟩
      · exact ⟨tail', by rw [htail', hacc], by rw [← hii]; exact hdec'⟩
      · -- emitted the single character text[i]
        refine ⟨idx :: tail', ?_, ?_⟩
        · simp [htail', hacc]
        · have hd := decoder_lookup hv hvl
          rw [hii] at hdec'
          have := deatomize_cons_some hd hdec'
          rw [this]
          rw [List.drop_eq_getElem_cons hilt,
            List.getD_eq_getElem text ' ' hilt]
          rfl
      · -- emitted the atom text[i:i']
        refine ⟨idx :: tail', ?_, ?_⟩
        · simp [htail', hacc]
        · have hd := decoder_lookup hv hvl
          have := deatomize_cons_some hd hdec'
          rw [this]
          have hsplit : pySlice text i i' ++ text.drop i' = text.drop i := by
            unfold pySlice
            have hdd : text.drop i' = (text.drop i).drop (i' - i) := by
              rw [List.drop_drop]
              congr 1
              omega
            rw [hdd, List.take_append_drop]
          rw [hsplit]

/-- C1: round trip of the greedy atomizer.  For every vocabulary whose
indices are duplicate free (the spec's vocabulary invariant — in particular
any bijective vocabulary, and any Python dict has duplicate-free keys) and
every text that `atomize` accepts (all atoms produced by the scan are in
the vocabulary, and the scan completes), `deatomize(atomize(text))` returns
the original text: the scan emits atoms that tile the text, and each
emitted index decodes back to the atom that produced it. -/
theorem greedy_roundtrip (vocab : Vocab) (text : List Char)
    (hv : (vocab.map Prod.snd).Nodup) (out : List Nat)
    (h : atomize vocab text = some out) :
    deatomize vocab out = some text := by
  unfold atomize at h
  cases hgo : atomizeGo vocab text (scanFuel text) 0 2 [] with
  | none => rw [hgo] at h; cases h
  | some r =>
    rw [hgo] at h
    simp only [Option.getD_some] at h
    rw [h] at hgo
    obtain ⟨tail, htail, hdec⟩ := atomizeGo_deatomize hv _ 0 2 [] out hgo
    rw [List.nil_append] at htail
    rw [htail, hdec, List.drop_zero]

/-- Witness for `greedy_roundtrip` on the vocabulary `vocabAB` and the text
`"aab"`, which atomizes to `[a, ab]`. -/
theorem greedy_roundtrip_witness :
    deatomize vocabAB [1, 0] = some "aab".data :=
  greedy_roundtrip vocabAB "aab".data (by decide) [1, 0] (by decide)

-- Clone and equality (C4) ----------------------------------------------------

theorem devDataEq_refl (d : DevData) : devDataEq d d = true := by
  cases d <;> simp [devDataEq]

theorem zip_self_all_eq : ∀ l : List Int,
    ((l.zip l).all fun p => p.1 == p.2) = true := by
  intro l
  induction l with
  | nil => rfl
  | cons x xs ih => simp [List.zip_cons_cons, List.all_cons, ih]

theorem argEq_cloneArg {a : KernelArg} (h : a.descr.is_local = false)
    (tok : Nat) : argEq (cloneArg a tok).1 a = true := by
  unfold cloneArg
  cases hh : a.hostdata with
  | none =>
    rw [if_neg (by simp [h]), if_pos (by simp [hh])]
    unfold argEq
    simp only [hh]
    exact devDataEq_refl _
  | some hx =>
    rw [if_neg (by simp [hh]), if_neg (by simp [hh])]
    unfold argEq
    simp only [hh]
    simp [zip_self_all_eq]

theorem cloneArgs_spec : ∀ (l : List KernelArg) (tok : Nat),
    (∀ a ∈ l, a.descr.is_local = false) →
    (cloneArgs l tok).1.length = l.length ∧
    (((cloneArgs l tok).1.zip l).all fun p => argEq p.1 p.2) = true := by
  intro l
  induction l with
  | nil => intro tok _; exact ⟨rfl, rfl⟩
  | cons a rest ih =>
    intro tok h
    obtain ⟨ih1, ih2⟩ := ih (cloneArg a tok).2
      (fun x hx => h x (List.mem_cons_of_mem _ hx))
    unfold cloneArgs
    refine ⟨by simp [ih1], ?_⟩
    simp only [List.zip_cons_cons, List.all_cons, Bool.and_eq_true]
    exact ⟨argEq_cloneArg (h a (List.mem_cons_self _ _)) tok, ih2⟩

theorem createArg_descr (gen : Nat → List Int) (genIsz size : Nat)
    (d : ArgDescr) (tok : Nat) :
    (createArg gen genIsz size d tok).1.descr = d := by
  unfold createArg
  split
  · rfl
  · split
    · rfl
    · rfl

theorem createArgs_descr (gen : Nat → List Int) (genIsz size : Nat) :
    ∀ (descrs : List ArgDescr) (tok : Nat),
      ∀ a ∈ (createArgs gen genIsz size descrs tok).1, ∃ d ∈ descrs, a.descr = d := by
  intro descrs
  induction descrs with
  | nil => intro tok a ha; cases ha
  | cons d ds ih =>
    intro tok a ha
    unfold createArgs at ha
    rcases List.mem_cons.mp ha with hhd | htl
    · exact ⟨d, List.mem_cons_self _ _, by rw [hhd]; exact createArg_descr ..⟩
    · obtain ⟨d', hd', had'⟩ := ih _ a htl
      exact ⟨d', List.mem_cons_of_mem _ hd', had'⟩

/-- C4, amended: for every payload synthesized by either generator from a
prototype with no local arguments, the deep clone equals the payload under
`__eq__`: scalars are compared by value and global pointers element-wise
through their host buffers.  (See `clone_eq_local_cex` for why local
arguments must be excluded.) -/
theorem clone_eq_no_local (gen : Nat → List Int) (genIsz ctx size tok tok2 : Nat)
    (descrs : List ArgDescr) (h : ∀ d ∈ descrs, d.is_local = false) :
    payloadEq
      (deepcopy (createPayload gen genIsz ctx descrs size tok).1 tok2).1
      (createPayload gen genIsz ctx descrs size tok).1 = true := by
  have hdloc : ∀ a ∈ (createPayload gen genIsz ctx descrs size tok).1.args,
      a.descr.is_local = false := by
    intro a ha
    obtain ⟨d, hd, had⟩ := createArgs_descr gen genIsz size descrs tok a ha
    rw [had]
    exact h d hd
  obtain ⟨hlen, hall⟩ := cloneArgs_spec
    (createPayload gen genIsz ctx descrs size tok).1.args tok2 hdloc
  unfold payloadEq
  have hctx : (deepcopy (createPayload gen genIsz ctx descrs size tok).1
      tok2).1.ctx = (createPayload gen genIsz ctx descrs size tok).1.ctx := rfl
  have hargs : (deepcopy (createPayload gen genIsz ctx descrs size tok).1
      tok2).1.args = (cloneArgs
        (createPayload gen genIsz ctx descrs size tok).1.args tok2).1 := rfl
  rw [hctx, hargs, hlen, hall]
  simp

/-- Local-pointer int argument descriptor for the clone counterexample. -/
def localDescr : ArgDescr :=
  { is_pointer := true, is_global := false, is_local := true,
    is_const := false, vector_width := 1, itemsize := 4 }

/-- C4, counterexample: a payload synthesized with a local-pointer argument
is NOT equal to its deep clone.  `__eq__` reaches the `hostdata is None`
branch for the local argument and there compares the device data — the
local scratch buffers — but the clone's `cl.LocalMemory` is a fresh object,
and handle objects compare by identity; so the comparison fails, refuting
both parts of the claim (the clone law and "local scratch buffers are never
compared"). -/
theorem clone_eq_local_cex :
    payloadEq
      (deepcopy (createPayload npArange 8 0 [localDescr] 4 0).1
        (createPayload npArange 8 0 [localDescr] 4 0).2).1
      (createPayload npArange 8 0 [localDescr] 4 0).1 = false := by
  decide

/-- Witness for `clone_eq_no_local`: a const global int pointer plus a
scalar, at `size = 4`. -/
theorem clone_eq_no_local_witness :
    payloadEq
      (deepcopy (createPayload npArange 8 0
        [{ is_pointer := true, is_global := true, is_local := false,
           is_const := true, vector_width := 1, itemsize := 4 },
         { is_pointer := false, is_global := false, is_local := false,
           is_const := false, vector_width := 1, itemsize := 4 }] 4 0).1 7).1
      (createPayload npArange 8 0
        [{ is_pointer := true, is_global := true, is_local := false,
           is_const := true, vector_width := 1, itemsize := 4 },
         { is_pointer := false, is_global := false, is_local := false,
           is_const := false, vector_width := 1, itemsize := 4 }] 4 0).1 = true :=
  clone_eq_no_local npArange 8 0 4 0 7 _ (by decide)

-- CharacterAtomizer.from_text (C8) -------------------------------------------

theorem firstOccurs_mem : ∀ (l seen : List Char) (c : Char),
    c ∈ firstOccurs seen l ↔ c ∉ seen ∧ c ∈ l := by
  intro l
  induction l with
  | nil => intro seen c; simp [firstOccurs]
  | cons x xs ih =>
    intro seen c
    unfold firstOccurs
    by_cases hx : x ∈ seen
    · rw [if_pos hx, ih]
      constructor
      · rintro ⟨h1, h2⟩
        exact ⟨h1, List.mem_cons_of_mem _ h2⟩
      · rintro ⟨h1, h2⟩
        rcases List.mem_cons.mp h2 with rfl | h2
        · exact absurd hx h1
        · exact ⟨h1, h2⟩
    · rw [if_neg hx]
      constructor
      · intro hc
        rcases List.mem_cons.mp hc with rfl | hc
        · exact ⟨hx, List.mem_cons_self _ _⟩
        · rw [ih] at hc
          refine ⟨fun hcs => hc.1 (List.mem_cons_of_mem _ hcs),
            List.mem_cons_of_mem _ hc.2⟩
      · rintro ⟨h1, h2⟩
        rcases List.mem_cons.mp h2 with rfl | h2
        · exact List.mem_cons_self _ _
        · by_cases hcx : c = x
          · rw [hcx]
            exact List.mem_cons_self _ _
          · refine List.mem_cons_of_mem _ ?_
            rw [ih]
            refine ⟨?_, h2⟩
            intro hmem
            rcases List.mem_cons.mp hmem with h | h
            · exact hcx h
            · exact h1 h

theorem firstOccurs_nodup : ∀ (l seen : List Char),
    (firstOccurs seen l).Nodup := by
  intro l
  induction l with
  | nil => intro seen; simp [firstOccurs]
  | cons x xs ih =>
    intro seen
    unfold firstOccurs
    split
    · exact ih seen
    · rw [List.nodup_cons]
      refine ⟨?_, ih _⟩
      intro hmem
      rw [firstOccurs_mem] at hmem
      exact hmem.1 (List.mem_cons_self _ _)

theorem charCounts_keys (text : List Char) :
    (charCounts text).map Prod.fst = firstOccurs [] text := by
  unfold charCounts
  rw [List.map_map]
  exact List.map_id _

theorem charCounts_count {text : List Char} {p : Char × Nat}
    (hp : p ∈ charCounts text) : p.2 = text.count p.1 ∧ p.1 ∈ text := by
  unfold charCounts at hp
  rw [List.mem_map] at hp
  obtain ⟨c, hc, hcp⟩ := hp
  cases hcp
  exact ⟨rfl, ((firstOccurs_mem text [] c).mp hc).2⟩

theorem countPairs_perm (text : List Char) :
    (countPairs text).Perm (charCounts text) :=
  List.perm_insertionSort _ _

theorem countPairs_sorted (text : List Char) :
    List.Sorted (fun p q : Char × Nat => q.2 ≤ p.2) (countPairs text) := by
  haveI : IsTotal (Char × Nat) (fun p q => q.2 ≤ p.2) :=
    ⟨fun a b => Nat.le_total b.2 a.2⟩
  haveI : IsTrans (Char × Nat) (fun p q => q.2 ≤ p.2) :=
    ⟨fun a b c hab hbc => Nat.le_trans hbc hab⟩
  exact List.sorted_insertionSort _ _

theorem filter_orderedInsert (k : Nat) (p : Char × Nat) :
    ∀ l : List (Char × Nat),
      (List.orderedInsert (fun p q => q.2 ≤ p.2) p l).filter
          (fun q => q.2 == k)
        = if p.2 = k then p :: l.filter (fun q => q.2 == k)
          else l.filter (fun q => q.2 == k) := by
  intro l
  induction l with
  | nil =>
    show List.filter _ [p] = _
    rw [List.filter_cons]
    by_cases hpk : p.2 = k
    · rw [if_pos (by simp [hpk]), if_pos hpk]
    · rw [if_neg (by simp [hpk]), if_neg hpk]
  | cons q qs ih =>
    unfold List.orderedInsert
    by_cases hr : q.2 ≤ p.2
    · rw [if_pos hr]
      by_cases hpk : p.2 = k
      · simp [List.filter_cons, hpk]
      · simp [List.filter_cons, hpk]
    · rw [if_neg hr]
      by_cases hpk : p.2 = k
      · have hqk : ¬ q.2 = k := by omega
        simp [List.filter_cons, ih, hpk, hqk]
      · by_cases hqk : q.2 = k
        · simp [List.filter_cons, ih, hpk, hqk]
        · simp [List.filter_cons, ih, hpk, hqk]

theorem filter_insertionSort (k : Nat) : ∀ l : List (Char × Nat),
    (List.insertionSort (fun p q => q.2 ≤ p.2) l).filter (fun q => q.2 == k)
      = l.filter (fun q => q.2 == k) := by
  intro l
  induction l with
  | nil => rfl
  | cons p ps ih =>
    show (List.orderedInsert _ p (List.insertionSort _ ps)).filter _ = _
    rw [filter_orderedInsert, ih, List.filter_cons]
    by_cases hpk : p.2 = k
    · rw [if_pos hpk, if_pos (by simp [hpk])]
    · rw [if_neg hpk, if_neg (by simp [hpk])]

theorem mem_zip_range {l : List Char} {c : Char} {i : Nat} :
    (c, i) ∈ l.zip (List.range l.length) ↔ l[i]? = some c := by
  rw [List.mem_iff_getElem?]
  constructor
  · rintro ⟨n, hn⟩
    rw [List.getElem?_zip_eq_some] at hn
    obtain ⟨h1, h2⟩ := hn
    by_cases hnl : n < l.length
    · rw [List.getElem?_range hnl] at h2
      cases h2
      exact h1
    · rw [List.getElem?_eq_none (by simpa using Nat.le_of_not_lt hnl)] at h2
      cases h2
  · intro h
    refine ⟨i, ?_⟩
    rw [List.getElem?_zip_eq_some]
    have hi : i < l.length := (List.getElem?_eq_some_iff.mp h).1
    exact ⟨h, List.getElem?_range hi⟩

/-- C8: properties of the vocabulary built by `CharacterAtomizer.from_text`
(the construction is a pure function of the corpus, hence deterministic).
Its keys are exactly the distinct characters of the corpus; a character
with a strictly higher occurrence count receives a strictly smaller index;
and within each count value the sorted pairs keep the insertion order of
the counting pass (Python's `sorted` is stable), stated as equality of the
count-level subsequences. -/
theorem charFromText_spec (text : List Char) (vocab : List (Char × Nat))
    (hv : charFromText text = some vocab) :
    (∀ c, (∃ i, (c, i) ∈ vocab) ↔ c ∈ text) ∧
    (∀ a ia b ib, (a, ia) ∈ vocab → (b, ib) ∈ vocab →
      text.count b < text.count a → ia < ib) ∧
    (∀ k, (countPairs text).filter (fun p => p.2 == k)
        = (charCounts text).filter (fun p => p.2 == k)) := by
  unfold charFromText at hv
  split at hv
  · cases hv
  · rw [Option.some.injEq] at hv
    subst hv
    have hkeys : ((countPairs text).map Prod.fst).Perm
        ((charCounts text).map Prod.fst) := (countPairs_perm text).map _
    refine ⟨?_, ?_, fun k => filter_insertionSort k (charCounts text)⟩
    · intro c
      constructor
      · rintro ⟨i, hi⟩
        rw [mem_zip_range] at hi
        have hc : c ∈ (countPairs text).map Prod.fst :=
          List.mem_iff_getElem?.mpr ⟨i, hi⟩
        rw [hkeys.mem_iff, charCounts_keys] at hc
        exact ((firstOccurs_mem text [] c).mp hc).2
      · intro hc
        have hmem : c ∈ (countPairs text).map Prod.fst := by
          rw [hkeys.mem_iff, charCounts_keys, firstOccurs_mem]
          exact ⟨by simp, hc⟩
        obtain ⟨i, hi⟩ := List.mem_iff_getElem?.mp hmem
        exact ⟨i, mem_zip_range.mpr hi⟩
    · intro a ia b ib ha hb hcnt
      rw [mem_zip_range] at ha hb
      obtain ⟨hia, hga⟩ := List.getElem?_eq_some_iff.mp ha
      obtain ⟨hib, hgb⟩ := List.getElem?_eq_some_iff.mp hb
      rw [List.length_map] at hia hib
      have hpa : (countPairs text)[ia].1 = a := by
        rw [List.getElem_map] at hga
        exact hga
      have hpb : (countPairs text)[ib].1 = b := by
        rw [List.getElem_map] at hgb
        exact hgb
      have hca : (countPairs text)[ia].2 = text.count a := by
        have hm : (countPairs text)[ia] ∈ charCounts text :=
          (countPairs_perm text).mem_iff.mp (List.getElem_mem hia)
        rw [(charCounts_count hm).1, hpa]
      have hcb : (countPairs text)[ib].2 = text.count b := by
        have hm : (countPairs text)[ib] ∈ charCounts text :=
          (countPairs_perm text).mem_iff.mp (List.getElem_mem hib)
        rw [(charCounts_count hm).1, hpb]
      by_contra hcon
      rcases Nat.lt_or_ge ib ia with hlt | hge
      · have hrel := (countPairs_sorted text).rel_get_of_lt
          (a := ⟨ib, hib⟩) (b := ⟨ia, hia⟩) hlt
        simp only [List.get_eq_getElem] at hrel
        omega
      · have : ia = ib := by omega
        subst this
        rw [← hpa, ← hpb] at hcnt
        omega

/-- Witness for `charFromText_spec` on the corpus `"aab"`: the vocabulary is
`a ↦ 0, b ↦ 1` and `count a = 2 > 1 = count b` forces `0 < 1`. -/
theorem charFromText_spec_witness :
    charFromText "aab".data = some [('a', 0), ('b', 1)] ∧ (0 : Nat) < 1 :=
  ⟨by decide,
    (charFromText_spec "aab".data [('a', 0), ('b', 1)] (by decide)).2.1
      'a' 0 'b' 1 (by decide) (by decide) (by decide)⟩
